import Mathlib

/-!
Verification of zip-extensions-rs against its specification.

Shallow embedding of the two source files of the repository:

* `src/file_utils.rs` : `file_write_all_bytes`, `make_relative_path`
* `src/read.rs`       : `try_is_zip`, `zip_extract_file`,
  `zip_extract_file_to_memory`, and the `ZipArchiveExtensions` trait
  implementation (`extract`, `extract_file`, `extract_file_to_memory`,
  `file_number`).

Modelling conventions:

* Bytes are `Nat`; file contents are `List Nat`.
* The filesystem is a finite map from path strings to file contents, plus a
  set of directory paths (`FS`).  Rust `Path`/`PathBuf` values are plain
  strings; `PathBuf::join` is modelled as string concatenation with a `/`
  separator (all paths involved are relative names produced by the archive).
* A parsed archive (`zip::ZipArchive`, an external collaborator) is a list of
  entry slots; a slot is `none` when `by_index` fails to resolve the entry and
  `some e` otherwise.  An entry carries the library-provided classification
  bits `is_dir` / `is_file`, its `sanitized_name` and its decoded contents
  (the result of `read_to_end`).
* Fallible Rust I/O: a single underlying `File::write` call may accept
  fewer bytes than offered without reporting an error; the number of bytes
  the OS accepts in one call is the explicit parameter `accept` (the call
  writes `min accept bytes.length` bytes, as permitted by the `Write` trait).
* Stateful operations return the filesystem state together with the
  `Except` result, so the state after a failed call is observable.
* `make_relative_path` works on the component lists of the two paths
  (`Path::components`); a component is a string, with "/" standing for the
  `RootDir` component.
-/

/-- Error kinds of `std::io::ErrorKind` used by the crate. -/
inductive ErrorKind where
  | AlreadyExists
  | InvalidInput
  | Other
deriving DecidableEq, Repr

/-- Errors of `zip::result::ZipError` as seen by this crate: `FileNotFound`,
an archive-level failure while resolving an entry, or a wrapped I/O error. -/
inductive ZipError where
  | FileNotFound
  | InvalidArchive
  | Io (kind : ErrorKind)
deriving DecidableEq, Repr

/-- The filesystem: named files with contents, and a set of directories. -/
structure FS where
  files : List (String × List Nat)
  dirs : List String
deriving DecidableEq, Repr

/-- Rust `Path::exists`: the path names an existing file or directory. -/
def pathExists (fs : FS) (p : String) : Bool :=
  fs.files.any (fun kv => kv.1 == p) || fs.dirs.contains p

/-- Contents of the file at `p`, if such a file exists. -/
def lookupFile (fs : FS) (p : String) : Option (List Nat) :=
  (fs.files.find? (fun kv => kv.1 == p)).map (fun kv => kv.2)

/-- Create or replace the file at `p` with contents `c`. -/
def setFile (fs : FS) (p : String) (c : List Nat) : FS :=
  ⟨(p, c) :: fs.files.filter (fun kv => kv.1 != p), fs.dirs⟩

/-- Rust `Path::is_dir`. -/
def isDirFS (fs : FS) (p : String) : Bool :=
  fs.dirs.contains p

/-- Rust `std::fs::create_dir_all`: creating an already-existing directory
succeeds, but when the path exists as a regular file the underlying `mkdir`
fails with `EEXIST` and the rescue in std (which checks `is_dir`) does not
apply, so the call fails with an `AlreadyExists` I/O error; otherwise the
directory is recorded (ancestor creation is not observable by any claim, so
only the full path is recorded). -/
def create_dir_all (fs : FS) (p : String) : FS × Except ErrorKind Unit :=
  if fs.dirs.contains p then (fs, .ok ())
  else if fs.files.any (fun kv => kv.1 == p) then (fs, .error .AlreadyExists)
  else (⟨fs.files, p :: fs.dirs⟩, .ok ())

/-- Rust `PathBuf::join` on the relative names appearing in the crate. -/
def joinPath (dir p : String) : String :=
  dir ++ "/" ++ p

/-!
Embedding of the source file `src/file_utils.rs`.
-/

/-- Embedding of `file_utils::file_write_all_bytes`:

```rust
pub fn file_write_all_bytes(path: PathBuf, bytes: &[u8], overwrite: bool) -> io::Result<usize> {
    if path.exists() && !overwrite {
        return Err(Error::new(ErrorKind::AlreadyExists, "The specified file already exists."));
    }
    let mut file = File::create(path)?;
    file.set_len(0)?;
    file.write(bytes)
}
```

`File::create` truncates, `set_len(0)` truncates again, and the single
`file.write(bytes)` call writes `min accept bytes.length` bytes, where
`accept` models how many bytes the OS accepts in this one call. -/
def file_write_all_bytes (accept : Nat) (fs : FS) (path : String)
    (bytes : List Nat) (overwrite : Bool) : FS × Except ErrorKind Nat :=
  if pathExists fs path && !overwrite then
    (fs, .error .AlreadyExists)
  else
    let fs1 := setFile fs path []
    let fs2 := setFile fs1 path []
    let n := min accept bytes.length
    (setFile fs2 path (bytes.take n), .ok n)

/-- Loop body of `file_utils::make_relative_path`:

```rust
for i in 0..current_components.len() {
    let current_path_component: Component = current_components[i];
    if i < root_components.len() {
        let other: Component = root_components[i];
        if other != current_path_component { break; }
    } else {
        result.push(current_path_component);
    }
}
```
-/
def makeRelativeLoop (root current : List String) (i : Nat)
    (result : List String) : List String :=
  if h : i < current.length then
    let c := current.get ⟨i, h⟩
    if hr : i < root.length then
      if root.get ⟨i, hr⟩ ≠ c then result
      else makeRelativeLoop root current (i + 1) result
    else makeRelativeLoop root current (i + 1) (result ++ [c])
  else result
termination_by current.length - i

/-- Embedding of `file_utils::make_relative_path`, on the component lists of
the two paths. -/
def make_relative_path (root current : List String) : List String :=
  makeRelativeLoop root current 0 []

/-!
Embedding of the source file `src/read.rs`.
-/

/-- One archive entry as exposed by the `zip` collaborator crate:
classification bits, the sanitized stored path and the decoded contents. -/
structure Entry where
  sanitized_name : String
  is_dir : Bool
  is_file : Bool
  contents : List Nat
deriving DecidableEq, Repr

/-- A parsed archive: the ordered entry sequence; a slot is `none` when
`by_index` fails to resolve that entry. -/
abbrev Archive := List (Option Entry)

/-- Rust `ZipArchive::len`. -/
def archiveLen (archive : Archive) : Nat :=
  archive.length

/-- Embedding of `ZipArchive::by_index`: `FileNotFound` for an out-of-range index, an
archive error when the entry fails to resolve. -/
def by_index (archive : Archive) (i : Nat) : Except ZipError Entry :=
  match archive.get? i with
  | none => .error .FileNotFound
  | some none => .error .InvalidArchive
  | some (some e) => .ok e

/-- Embedding of `read::try_is_zip` on the contents of a readable file:

```rust
const ZIP_SIGNATURE: [u8; 2] = [0x50, 0x4b];
const ZIP_ARCHIVE_FORMAT: [u8; 6] = [0x03, 0x04, 0x05, 0x06, 0x07, 0x08];
let mut buffer: [u8; 4] = [0; 4];
let bytes_read = file.read(&mut buffer)?;
if bytes_read == buffer.len() {
    for i in 0..ZIP_SIGNATURE.len() {
        if buffer[i] != ZIP_SIGNATURE[i] { return Ok(false); }
    }
    for i in (0..ZIP_ARCHIVE_FORMAT.len()).step_by(2) {
        if buffer[2] == ZIP_ARCHIVE_FORMAT[i] || buffer[3] == ZIP_ARCHIVE_FORMAT[i + 1] {
            return Ok(true);
        }
    }
}
Ok(false)
```

The `read` call fills the zero-initialised 4-byte buffer with the first
`min contents.length 4` bytes; the two constant-bound loops are unrolled
(signature indices 0, 1; format index pairs (0,1), (2,3), (4,5)). -/
def try_is_zip (contents : List Nat) : Bool :=
  let ZIP_SIGNATURE : List Nat := [0x50, 0x4b]
  let ZIP_ARCHIVE_FORMAT : List Nat := [0x03, 0x04, 0x05, 0x06, 0x07, 0x08]
  let buffer := contents.take 4 ++ List.replicate (4 - contents.length) 0
  let bytes_read := min contents.length 4
  if bytes_read == 4 then
    if buffer.getD 0 0 != ZIP_SIGNATURE.getD 0 0 then false
    else if buffer.getD 1 0 != ZIP_SIGNATURE.getD 1 0 then false
    else if buffer.getD 2 0 == ZIP_ARCHIVE_FORMAT.getD 0 0
         || buffer.getD 3 0 == ZIP_ARCHIVE_FORMAT.getD 1 0 then true
    else if buffer.getD 2 0 == ZIP_ARCHIVE_FORMAT.getD 2 0
         || buffer.getD 3 0 == ZIP_ARCHIVE_FORMAT.getD 3 0 then true
    else if buffer.getD 2 0 == ZIP_ARCHIVE_FORMAT.getD 4 0
         || buffer.getD 3 0 == ZIP_ARCHIVE_FORMAT.getD 5 0 then true
    else false
  else false

/-- Loop of `ZipArchiveExtensions::file_number`:

```rust
for file_number in 0..self.len() {
    if let Ok(next) = self.by_index(file_number) {
        let sanitized_name = next.sanitized_name();
        if sanitized_name == *entry_path.as_ref() { return Some(file_number); }
    }
}
None
```
-/
def fileNumberLoop (archive : Archive) (entry_path : String) (i : Nat) :
    Option Nat :=
  if _h : i < archiveLen archive then
    match by_index archive i with
    | .ok next =>
        if next.sanitized_name = entry_path then some i
        else fileNumberLoop archive entry_path (i + 1)
    | .error _ => fileNumberLoop archive entry_path (i + 1)
  else none
termination_by archiveLen archive - i

/-- Embedding of `ZipArchiveExtensions::file_number`. -/
def file_number (archive : Archive) (entry_path : String) : Option Nat :=
  fileNumberLoop archive entry_path 0

/-- Embedding of `ZipArchiveExtensions::extract_file_to_memory`; the buffer of
the caller is threaded explicitly (it is a `&mut Vec<u8>` in the source), so
the buffer after a failed call is observable:

```rust
let mut next: ZipFile = self.by_index(file_number)?;
if next.is_file() {
    let _bytes_read = next.read_to_end(buffer)?;
    return Ok(());
}
Err(ZipError::Io(Error::new(ErrorKind::InvalidInput,
    "The specified index does not indicate a file entry.")))
```
-/
def extract_file_to_memory (archive : Archive) (file_number : Nat)
    (buffer : List Nat) : List Nat × Except ZipError Unit :=
  match by_index archive file_number with
  | .error e => (buffer, .error e)
  | .ok next =>
      if next.is_file then (buffer ++ next.contents, .ok ())
      else (buffer, .error (.Io .InvalidInput))

/-- Embedding of `ZipArchiveExtensions::extract_file`:

```rust
let mut buffer: Vec<u8> = Vec::new();
self.extract_file_to_memory(file_number, &mut buffer)?;
file_write_all_bytes(destination_file_path.as_ref().to_path_buf(), buffer.as_ref(), overwrite)?;
Ok(())
```
-/
def extract_file (archive : Archive) (accept : Nat) (fs : FS)
    (file_number : Nat) (destination_file_path : String) (overwrite : Bool) :
    FS × Except ZipError Unit :=
  match extract_file_to_memory archive file_number [] with
  | (_, .error e) => (fs, .error e)
  | (buffer, .ok _) =>
      match file_write_all_bytes accept fs destination_file_path buffer overwrite with
      | (fs1, .ok _) => (fs1, .ok ())
      | (fs1, .error k) => (fs1, .error (.Io k))

/-- Loop of `ZipArchiveExtensions::extract`:

```rust
for file_number in 0..self.len() {
    let mut next: ZipFile = self.by_index(file_number)?;
    let sanitized_name = next.sanitized_name();
    if next.is_dir() {
        let extracted_folder_path = target_directory.as_ref().join(sanitized_name);
        std::fs::create_dir_all(extracted_folder_path)?;
    } else if next.is_file() {
        let mut buffer: Vec<u8> = Vec::new();
        let _bytes_read = next.read_to_end(&mut buffer)?;
        let extracted_file_path = target_directory.as_ref().join(sanitized_name);
        file_write_all_bytes(extracted_file_path, buffer.as_ref(), true)?;
    }
}
```
-/
def extractLoop (archive : Archive) (accept : Nat) (target_directory : String)
    (fs : FS) (i : Nat) : FS × Except ZipError Unit :=
  if _h : i < archiveLen archive then
    match by_index archive i with
    | .error e => (fs, .error e)
    | .ok next =>
        if next.is_dir then
          match create_dir_all fs (joinPath target_directory next.sanitized_name) with
          | (fs1, .ok _) => extractLoop archive accept target_directory fs1 (i + 1)
          | (fs1, .error k) => (fs1, .error (.Io k))
        else if next.is_file then
          let buffer := next.contents
          match file_write_all_bytes accept fs
              (joinPath target_directory next.sanitized_name) buffer true with
          | (fs1, .ok _) => extractLoop archive accept target_directory fs1 (i + 1)
          | (fs1, .error k) => (fs1, .error (.Io k))
        else
          extractLoop archive accept target_directory fs (i + 1)
  else (fs, .ok ())
termination_by archiveLen archive - i

/-- Embedding of `ZipArchiveExtensions::extract` (whole-archive extraction). -/
def extract (archive : Archive) (accept : Nat) (fs : FS)
    (target_directory : String) : FS × Except ZipError Unit :=
  if !isDirFS fs target_directory then
    (fs, .error (.Io .InvalidInput))
  else
    extractLoop archive accept target_directory fs 0

/-- Embedding of `read::zip_extract_file`, after the archive has been opened and parsed
(opening and parsing are the job of the external collaborator):

```rust
let file_number: usize = match archive.file_number(entry_path.as_ref()) {
    Some(index) => index,
    None => return Err(ZipError::FileNotFound),
};
let destination_file_path = target_dir.as_ref().join(entry_path.as_ref());
archive.extract_file(file_number, &destination_file_path, overwrite)
```
-/
def zip_extract_file (archive : Archive) (accept : Nat) (fs : FS)
    (entry_path target_dir : String) (overwrite : Bool) :
    FS × Except ZipError Unit :=
  match file_number archive entry_path with
  | none => (fs, .error .FileNotFound)
  | some idx =>
      let destination_file_path := joinPath target_dir entry_path
      extract_file archive accept fs idx destination_file_path overwrite

/-- Embedding of `read::zip_extract_file_to_memory`, after the archive has
been opened and parsed:

```rust
let file_number: usize = match archive.file_number(entry_path) {
    Some(index) => index,
    None => return Err(ZipError::FileNotFound),
};
archive.extract_file_to_memory(file_number, buffer)
```
-/
def zip_extract_file_to_memory (archive : Archive) (entry_path : String)
    (buffer : List Nat) : List Nat × Except ZipError Unit :=
  match file_number archive entry_path with
  | none => (buffer, .error .FileNotFound)
  | some idx => extract_file_to_memory archive idx buffer

/-!
Helper definitions for the statements and proofs below.
-/

/-- Structural restatement of the loop of `make_relative_path`, used to
reason about it: walking both component lists in lockstep, equal heads
recurse, a differing head stops with nothing kept, and an exhausted root
keeps the rest of `current`. -/
def mrpGo : List String → List String → List String
  | [], cs => cs
  | _ :: _, [] => []
  | r :: rs, c :: cs => if r = c then mrpGo rs cs else []

/-- The loop test of `file_number` on one entry slot: the slot resolves and
its sanitized path equals the target path. -/
def slotMatches (entry_path : String) (slot : Option Entry) : Bool :=
  match slot with
  | some e => e.sanitized_name == entry_path
  | none => false

/-!
General lemmas about the embedded operations.
-/

theorem mrpGo_nil (rs : List String) : mrpGo rs [] = [] := by
  cases rs <;> rfl

theorem makeRelativeLoop_eq_mrpGo (root current : List String) :
    ∀ k i acc, current.length - i ≤ k →
      makeRelativeLoop root current i acc =
        acc ++ mrpGo (root.drop i) (current.drop i) := by
  intro k
  induction k with
  | zero =>
      intro i acc hk
      have hi : current.length ≤ i := by omega
      rw [makeRelativeLoop]
      rw [dif_neg (by omega)]
      rw [List.drop_eq_nil_of_le hi, mrpGo_nil, List.append_nil]
  | succ k ih =>
      intro i acc hk
      by_cases h : i < current.length
      · rw [makeRelativeLoop, dif_pos h]
        have hcur : current.drop i = current.get ⟨i, h⟩ :: current.drop (i + 1) := by
          rw [List.drop_eq_getElem_cons h]
          rfl
        by_cases hr : i < root.length
        · have hroot : root.drop i = root.get ⟨i, hr⟩ :: root.drop (i + 1) := by
            rw [List.drop_eq_getElem_cons hr]
            rfl
          simp only [dif_pos hr]
          by_cases heq : root.get ⟨i, hr⟩ = current.get ⟨i, h⟩
          · rw [if_neg (by simpa using heq)]
            rw [ih (i + 1) acc (by omega)]
            rw [hcur, hroot, mrpGo, if_pos heq]
          · rw [if_pos (by simpa using heq)]
            rw [hcur, hroot, mrpGo, if_neg heq, List.append_nil]
        · simp only [dif_neg hr]
          rw [ih (i + 1) (acc ++ [current.get ⟨i, h⟩]) (by omega)]
          have hroot1 : root.drop i = [] := List.drop_eq_nil_of_le (by omega)
          have hroot2 : root.drop (i + 1) = [] := List.drop_eq_nil_of_le (by omega)
          rw [hroot1, hroot2, hcur, mrpGo, mrpGo, List.append_assoc]
          rfl
      · rw [makeRelativeLoop, dif_neg h]
        have hi : current.length ≤ i := by omega
        rw [List.drop_eq_nil_of_le hi, mrpGo_nil, List.append_nil]

theorem mrpGo_eq (root current : List String) :
    mrpGo root current =
      if (root.zip current).all (fun q => q.1 == q.2) then
        current.drop root.length
      else [] := by
  induction root generalizing current with
  | nil => simp [mrpGo]
  | cons r rs ih =>
      cases current with
      | nil => simp [mrpGo_nil]
      | cons c cs =>
          simp only [mrpGo, List.zip_cons_cons, List.all_cons, List.length_cons,
            List.drop_succ_cons]
          by_cases h : r = c
          · subst h
            rw [ih, show (r == r) = true from by simp, Bool.true_and, if_pos rfl]
          · simp [h]

theorem natBeqDecide (x y : Nat) : (x == y) = decide (x = y) := by
  by_cases h : x = y <;> simp [h]

theorem ifChain3 (x y z : Bool) :
    (if x then true else if y then true else if z then true else false)
      = (x || y || z) := by
  cases x <;> cases y <;> cases z <;> rfl

theorem by_index_ok_iff (archive : Archive) (i : Nat) (e : Entry) :
    by_index archive i = .ok e ↔ archive.get? i = some (some e) := by
  unfold by_index
  cases h : archive.get? i with
  | none => simp
  | some oe => cases oe <;> simp

theorem by_index_error_shape (archive : Archive) (i : Nat) (e : ZipError)
    (h : by_index archive i = .error e) :
    e = .FileNotFound ∨ e = .InvalidArchive := by
  unfold by_index at h
  cases hg : archive.get? i with
  | none =>
      rw [hg] at h
      simp at h
      exact Or.inl h.symm
  | some oe =>
      cases oe with
      | none =>
          rw [hg] at h
          simp at h
          exact Or.inr h.symm
      | some x =>
          rw [hg] at h
          simp at h

theorem slotMatches_getD_of_none (archive : Archive) (j : Nat) (p : String)
    (h : archiveLen archive ≤ j) :
    slotMatches p (archive.getD j none) = false := by
  have hg : archive[j]? = none := List.getElem?_eq_none h
  simp [List.getD, hg, slotMatches]

theorem slotMatches_getD_of_get (archive : Archive) (j : Nat) (p : String)
    (oe : Option Entry) (h : archive.get? j = some oe) :
    slotMatches p (archive.getD j none) = slotMatches p oe := by
  rw [List.get?_eq_getElem?] at h
  simp [List.getD, h]

theorem fileNumberLoop_stop (archive : Archive) (p : String) (i : Nat)
    (h : ¬i < archiveLen archive) :
    fileNumberLoop archive p i = none := by
  rw [fileNumberLoop, dif_neg h]

theorem fileNumberLoop_unfold_ok (archive : Archive) (p : String) (i : Nat)
    (next : Entry) (h : i < archiveLen archive)
    (hbi : by_index archive i = .ok next) :
    fileNumberLoop archive p i =
      if next.sanitized_name = p then some i
      else fileNumberLoop archive p (i + 1) := by
  conv_lhs => rw [fileNumberLoop]
  rw [dif_pos h]
  simp only [hbi]

theorem fileNumberLoop_unfold_err (archive : Archive) (p : String) (i : Nat)
    (e : ZipError) (h : i < archiveLen archive)
    (hbi : by_index archive i = .error e) :
    fileNumberLoop archive p i = fileNumberLoop archive p (i + 1) := by
  conv_lhs => rw [fileNumberLoop]
  rw [dif_pos h]
  simp only [hbi]

theorem fileNumberLoop_spec (archive : Archive) (p : String) :
    ∀ k i, archiveLen archive - i ≤ k →
      (∀ r, fileNumberLoop archive p i = some r →
        i ≤ r ∧ slotMatches p (archive.getD r none) = true ∧
        ∀ j, i ≤ j → j < r → slotMatches p (archive.getD j none) = false) ∧
      (fileNumberLoop archive p i = none →
        ∀ j, i ≤ j → slotMatches p (archive.getD j none) = false) := by
  intro k
  induction k with
  | zero =>
      intro i hk
      rw [fileNumberLoop_stop archive p i (by omega)]
      refine ⟨fun r hr => absurd hr (by simp), fun _ j hj => ?_⟩
      exact slotMatches_getD_of_none archive j p (by omega)
  | succ k ih =>
      intro i hk
      by_cases h : i < archiveLen archive
      · have ih1 := ih (i + 1) (by omega)
        cases hbi : by_index archive i with
        | ok next =>
            have hgi : archive.get? i = some (some next) :=
              (by_index_ok_iff archive i next).mp hbi
            have hmi : slotMatches p (archive.getD i none) = (next.sanitized_name == p) :=
              slotMatches_getD_of_get archive i p (some next) hgi
            rw [fileNumberLoop_unfold_ok archive p i next h hbi]
            by_cases hname : next.sanitized_name = p
            · rw [if_pos hname]
              refine ⟨fun r hr => ?_, fun hr => absurd hr (by simp)⟩
              cases hr
              exact ⟨le_refl i, by rw [hmi]; simp [hname],
                fun j hj1 hj2 => by omega⟩
            · rw [if_neg hname]
              have hfalse : slotMatches p (archive.getD i none) = false := by
                rw [hmi]
                simp [hname]
              refine ⟨fun r hr => ?_, fun hr j hj => ?_⟩
              · obtain ⟨hr1, hr2, hr3⟩ := ih1.1 r hr
                refine ⟨by omega, hr2, fun j hj1 hj2 => ?_⟩
                by_cases hji : j = i
                · subst hji
                  exact hfalse
                · exact hr3 j (by omega) hj2
              · by_cases hji : j = i
                · subst hji
                  exact hfalse
                · exact ih1.2 hr j (by omega)
        | error e =>
            have hfalse : slotMatches p (archive.getD i none) = false := by
              cases hg : archive.get? i with
              | none =>
                  rw [List.get?_eq_getElem?] at hg
                  simp [List.getD, hg, slotMatches]
              | some oe =>
                  cases oe with
                  | none =>
                      rw [slotMatches_getD_of_get archive i p none hg]
                      rfl
                  | some x =>
                      have := (by_index_ok_iff archive i x).mpr hg
                      rw [hbi] at this
                      exact absurd this (by simp)
            rw [fileNumberLoop_unfold_err archive p i e h hbi]
            refine ⟨fun r hr => ?_, fun hr j hj => ?_⟩
            · obtain ⟨hr1, hr2, hr3⟩ := ih1.1 r hr
              refine ⟨by omega, hr2, fun j hj1 hj2 => ?_⟩
              by_cases hji : j = i
              · subst hji
                exact hfalse
              · exact hr3 j (by omega) hj2
            · by_cases hji : j = i
              · subst hji
                exact hfalse
              · exact ih1.2 hr j (by omega)
      · rw [fileNumberLoop_stop archive p i h]
        refine ⟨fun r hr => absurd hr (by simp), fun _ j hj => ?_⟩
        exact slotMatches_getD_of_none archive j p (by omega)

theorem file_number_spec (archive : Archive) (p : String) :
    (∀ r, file_number archive p = some r →
      slotMatches p (archive.getD r none) = true ∧
      ∀ j, j < r → slotMatches p (archive.getD j none) = false) ∧
    (file_number archive p = none →
      ∀ j, slotMatches p (archive.getD j none) = false) := by
  have h := fileNumberLoop_spec archive p (archiveLen archive) 0 (by omega)
  unfold file_number
  exact ⟨fun r hr => ⟨(h.1 r hr).2.1, fun j hj => (h.1 r hr).2.2 j (by omega) hj⟩,
    fun hn j => h.2 hn j (by omega)⟩

theorem file_write_all_bytes_overwrite_ok (accept : Nat) (fs : FS)
    (path : String) (bytes : List Nat) :
    file_write_all_bytes accept fs path bytes true =
      (setFile (setFile (setFile fs path []) path [])
        path (bytes.take (min accept bytes.length)),
       .ok (min accept bytes.length)) := by
  unfold file_write_all_bytes
  simp

theorem file_write_all_bytes_fresh_ok (accept : Nat) (fs : FS)
    (path : String) (bytes : List Nat) (ow : Bool)
    (h : pathExists fs path = false ∨ ow = true) :
    file_write_all_bytes accept fs path bytes ow =
      (setFile (setFile (setFile fs path []) path [])
        path (bytes.take (min accept bytes.length)),
       .ok (min accept bytes.length)) := by
  unfold file_write_all_bytes
  rcases h with h | h
  · rw [h]
    rfl
  · rw [h]
    simp

theorem setFile_setFile (fs : FS) (p : String) (c1 c2 : List Nat) :
    setFile (setFile fs p c1) p c2 = setFile fs p c2 := by
  unfold setFile
  simp [List.filter]

theorem lookupFile_setFile (fs : FS) (p : String) (c : List Nat) :
    lookupFile (setFile fs p c) p = some c := by
  unfold lookupFile setFile
  simp [List.find?]

theorem extractLoop_stop (archive : Archive) (accept : Nat) (target : String)
    (fs : FS) (i : Nat) (h : ¬i < archiveLen archive) :
    extractLoop archive accept target fs i = (fs, .ok ()) := by
  rw [extractLoop, dif_neg h]

theorem extractLoop_unfold_err (archive : Archive) (accept : Nat) (target : String)
    (fs : FS) (i : Nat) (e : ZipError) (h : i < archiveLen archive)
    (hbi : by_index archive i = .error e) :
    extractLoop archive accept target fs i = (fs, .error e) := by
  conv_lhs => rw [extractLoop]
  rw [dif_pos h]
  simp only [hbi]

theorem extractLoop_unfold_dir_ok (archive : Archive) (accept : Nat) (target : String)
    (fs fs1 : FS) (i : Nat) (next : Entry) (h : i < archiveLen archive)
    (hbi : by_index archive i = .ok next) (hdir : next.is_dir = true)
    (hc : create_dir_all fs (joinPath target next.sanitized_name) = (fs1, .ok ())) :
    extractLoop archive accept target fs i =
      extractLoop archive accept target fs1 (i + 1) := by
  conv_lhs => rw [extractLoop]
  rw [dif_pos h]
  simp only [hbi, hdir, if_true, hc]

theorem extractLoop_unfold_dir_err (archive : Archive) (accept : Nat) (target : String)
    (fs fs1 : FS) (i : Nat) (next : Entry) (k : ErrorKind) (h : i < archiveLen archive)
    (hbi : by_index archive i = .ok next) (hdir : next.is_dir = true)
    (hc : create_dir_all fs (joinPath target next.sanitized_name) = (fs1, .error k)) :
    extractLoop archive accept target fs i = (fs1, .error (.Io k)) := by
  conv_lhs => rw [extractLoop]
  rw [dif_pos h]
  simp only [hbi, hdir, if_true, hc]

theorem extractLoop_unfold_file (archive : Archive) (accept : Nat) (target : String)
    (fs : FS) (i : Nat) (next : Entry) (h : i < archiveLen archive)
    (hbi : by_index archive i = .ok next) (hdir : next.is_dir = false)
    (hfile : next.is_file = true) :
    extractLoop archive accept target fs i =
      extractLoop archive accept target
        (setFile (setFile (setFile fs (joinPath target next.sanitized_name) [])
            (joinPath target next.sanitized_name) [])
          (joinPath target next.sanitized_name)
          (next.contents.take (min accept next.contents.length))) (i + 1) := by
  conv_lhs => rw [extractLoop]
  rw [dif_pos h]
  simp only [hbi, hdir, hfile, if_true, Bool.false_eq_true, if_false,
    file_write_all_bytes_overwrite_ok]

theorem extractLoop_unfold_skip (archive : Archive) (accept : Nat) (target : String)
    (fs : FS) (i : Nat) (next : Entry) (h : i < archiveLen archive)
    (hbi : by_index archive i = .ok next) (hdir : next.is_dir = false)
    (hfile : next.is_file = false) :
    extractLoop archive accept target fs i =
      extractLoop archive accept target fs (i + 1) := by
  conv_lhs => rw [extractLoop]
  rw [dif_pos h]
  simp only [hbi, hdir, hfile, Bool.false_eq_true, if_false]

theorem by_index_ok_lt (archive : Archive) (i : Nat) (e : Entry)
    (hbi : by_index archive i = .ok e) : i < archiveLen archive := by
  by_contra h
  have hg : archive.get? i = none := by
    rw [List.get?_eq_none]
    unfold archiveLen at h
    omega
  have := (by_index_ok_iff archive i e).mp hbi
  rw [hg] at this
  exact absurd this (by simp)

theorem by_index_ok_mem (archive : Archive) (i : Nat) (e : Entry)
    (hbi : by_index archive i = .ok e) : (some e : Option Entry) ∈ archive := by
  have hg := (by_index_ok_iff archive i e).mp hbi
  rw [List.get?_eq_getElem?] at hg
  exact List.getElem?_mem hg

theorem extractLoop_no_already_exists_of_no_dir (archive : Archive) (accept : Nat)
    (target : String)
    (hnd : ∀ oe ∈ archive, ∀ e : Entry, oe = some e → e.is_dir = false) :
    ∀ k i fs, archiveLen archive - i ≤ k →
      (extractLoop archive accept target fs i).2 ≠ .error (.Io .AlreadyExists) := by
  intro k
  induction k with
  | zero =>
      intro i fs hk
      rw [extractLoop_stop archive accept target fs i (by omega)]
      simp
  | succ k ih =>
      intro i fs hk
      by_cases h : i < archiveLen archive
      · cases hbi : by_index archive i with
        | error e =>
            rw [extractLoop_unfold_err archive accept target fs i e h hbi]
            rcases by_index_error_shape archive i e hbi with he | he <;> simp [he]
        | ok next =>
            have hdir : next.is_dir = false :=
              hnd (some next) (by_index_ok_mem archive i next hbi) next rfl
            cases hfile : next.is_file with
            | true =>
                rw [extractLoop_unfold_file archive accept target fs i next h hbi
                  hdir hfile]
                exact ih (i + 1) _ (by omega)
            | false =>
                rw [extractLoop_unfold_skip archive accept target fs i next h hbi
                  hdir hfile]
                exact ih (i + 1) _ (by omega)
      · rw [extractLoop_stop archive accept target fs i h]
        simp

theorem extract_file_to_memory_ok (archive : Archive) (i : Nat) (next : Entry)
    (buffer : List Nat) (hbi : by_index archive i = .ok next)
    (hfile : next.is_file = true) :
    extract_file_to_memory archive i buffer = (buffer ++ next.contents, .ok ()) := by
  unfold extract_file_to_memory
  simp only [hbi, hfile, if_true]

theorem extract_file_to_memory_not_file (archive : Archive) (i : Nat) (next : Entry)
    (buffer : List Nat) (hbi : by_index archive i = .ok next)
    (hfile : next.is_file = false) :
    extract_file_to_memory archive i buffer = (buffer, .error (.Io .InvalidInput)) := by
  unfold extract_file_to_memory
  simp only [hbi, hfile, Bool.false_eq_true, if_false]

theorem extract_file_to_memory_err (archive : Archive) (i : Nat) (e : ZipError)
    (buffer : List Nat) (hbi : by_index archive i = .error e) :
    extract_file_to_memory archive i buffer = (buffer, .error e) := by
  unfold extract_file_to_memory
  simp only [hbi]

theorem file_number_none_of_no_match (archive : Archive) (entry_path : String)
    (h : ∀ oe ∈ archive, ∀ e, oe = some e → e.sanitized_name ≠ entry_path) :
    file_number archive entry_path = none := by
  cases hfn : file_number archive entry_path with
  | none => rfl
  | some r =>
      have hm := ((file_number_spec archive entry_path).1 r hfn).1
      cases hg : archive.get? r with
      | none =>
          rw [slotMatches_getD_of_none archive r entry_path
            (by rw [List.get?_eq_none] at hg; exact hg)] at hm
          exact absurd hm (by simp)
      | some oe =>
          rw [slotMatches_getD_of_get archive r entry_path oe hg] at hm
          cases oe with
          | none => simp [slotMatches] at hm
          | some x =>
              simp only [slotMatches, beq_iff_eq] at hm
              have hg2 := hg
              rw [List.get?_eq_getElem?] at hg2
              exact absurd hm (h (some x) (List.getElem?_mem hg2) x rfl)

/-!
Claim theorems.
-/

/-- C1 counterexample: with root `/a/b` (components `["/", "a", "b"]`) and
current `/x/y` (components `["/", "x", "y"]`), the two paths diverge at the
second component, and `make_relative_path` returns the empty path — not
`x/y` (components `["x", "y"]`) as the claim states. -/
theorem make_relative_path_keeps_remainder_counterexample :
    make_relative_path ["/", "a", "b"] ["/", "x", "y"] = [] ∧
    ([] : List String) ≠ ["x", "y"] := by
  constructor
  · simp [make_relative_path, makeRelativeLoop, List.get]
  · simp

/-- C1 (amended): `make_relative_path` drops components shared at the same
position; components of `current` beyond the length of `root` are kept only
when no divergence occurs at any shared position, and at the first
divergence the loop breaks and nothing further is kept, so the result is
empty.  In particular, for root `/a/b` and current `/a/b/c/d` the result is
`c/d`, while for root `/a/b` and current `/x/y` the result is the empty
path. -/
theorem make_relative_path_drops_after_divergence (root current : List String) :
    make_relative_path root current =
      (if (root.zip current).all (fun q => q.1 == q.2) then
        current.drop root.length
      else []) := by
  rw [make_relative_path,
    makeRelativeLoop_eq_mrpGo root current current.length 0 [] (by omega)]
  simp [mrpGo_eq]

/-- C2 (code bug): `file_write_all_bytes` performs a single underlying
`write` call and returns its count without checking it.  When the OS
accepts 0 of the 1 offered byte (a short write, legal for the Rust `Write`
trait), the function returns `Ok(0)` — a silent short count with no error
and nothing written — contradicting the claim that it loops until all
bytes are written or an error occurs. -/
theorem file_write_all_bytes_silent_short_write :
    (file_write_all_bytes 0 ⟨[], []⟩ "f" [1] true).2 = .ok 0 ∧
    lookupFile (file_write_all_bytes 0 ⟨[], []⟩ "f" [1] true).1 "f" = some [] ∧
    (0 : Nat) ≠ [1].length := by
  refine ⟨rfl, rfl, by simp⟩

/-- C3: `try_is_zip` returns `false` when fewer than 4 bytes are available;
with 4 bytes read it returns `false` unless the first two bytes are
`0x50 0x4b`, and then returns `true` exactly when, for one of the
sub-signature pairs `(0x03, 0x04)`, `(0x05, 0x06)`, `(0x07, 0x08)`, the
third byte equals the even-indexed member or the fourth byte equals the
paired odd-indexed member. -/
theorem try_is_zip_signature_check (contents : List Nat) :
    try_is_zip contents =
      (decide (4 ≤ contents.length) &&
       (contents.getD 0 0 == 0x50) && (contents.getD 1 0 == 0x4b) &&
       ((contents.getD 2 0 == 0x03) || (contents.getD 3 0 == 0x04) ||
        (contents.getD 2 0 == 0x05) || (contents.getD 3 0 == 0x06) ||
        (contents.getD 2 0 == 0x07) || (contents.getD 3 0 == 0x08))) := by
  match contents with
  | [] => rfl
  | [a] => rfl
  | [a, b] => rfl
  | [a, b, c] => rfl
  | a :: b :: c :: d :: rest =>
      have hlen : 4 ≤ (a :: b :: c :: d :: rest).length := by
        simp
      have hmin : min (a :: b :: c :: d :: rest).length 4 = 4 := by
        simp [Nat.min_def]
      have hz : 4 - (a :: b :: c :: d :: rest).length = 0 := by
        simp
      simp only [try_is_zip, hmin, hz, List.replicate_zero, List.append_nil,
        List.take_succ_cons, List.take_zero, beq_self_eq_true, if_true,
        decide_eq_true hlen, Bool.true_and, List.getD]
      by_cases ha : a = 0x50 <;> by_cases hb : b = 0x4b <;>
        simp [ha, hb, ifChain3, Bool.or_assoc, natBeqDecide]

/-- C4: when the destination path already exists and `overwrite` is false,
`file_write_all_bytes` fails with `AlreadyExists` and leaves the filesystem
— in particular the contents of the existing file — completely
unchanged. -/
theorem file_write_all_bytes_already_exists (accept : Nat) (fs : FS)
    (path : String) (bytes : List Nat) (h : pathExists fs path = true) :
    file_write_all_bytes accept fs path bytes false = (fs, .error .AlreadyExists) := by
  unfold file_write_all_bytes
  rw [h]
  rfl

theorem file_write_all_bytes_already_exists_witness :
    pathExists ⟨[("f", [7])], []⟩ "f" = true ∧
    file_write_all_bytes 5 ⟨[("f", [7])], []⟩ "f" [1, 2] false =
      (⟨[("f", [7])], []⟩, .error .AlreadyExists) :=
  ⟨rfl, file_write_all_bytes_already_exists 5 ⟨[("f", [7])], []⟩ "f" [1, 2] rfl⟩

/-- C5: whole-archive extraction commits every file entry through the write
primitive with the overwrite flag forced to `true`.  First conjunct: for
every archive, every index holding a file entry, and every intermediate
filesystem state — in particular states where the destination path already
holds a file with arbitrary contents — the extraction loop at that index
never consults an overwrite preference or fails with `AlreadyExists`: it
unconditionally replaces the destination with the contents of the entry
and proceeds to the next index.  Second conjunct: end to end, extracting an
archive whose file entry targets an already-existing file succeeds and
overwrites it.  Third conjunct: for archives with no directory entries
(whose `create_dir_all` is the one remaining `AlreadyExists` source, not
covered by this claim), `extract` can never fail with `AlreadyExists`. -/
theorem extract_always_overwrites :
    (∀ (archive : Archive) (accept : Nat) (target : String) (fs : FS)
      (i : Nat) (e : Entry),
      by_index archive i = .ok e → e.is_dir = false → e.is_file = true →
      e.contents.length ≤ accept →
      extractLoop archive accept target fs i =
        extractLoop archive accept target
          (setFile fs (joinPath target e.sanitized_name) e.contents) (i + 1) ∧
      lookupFile (setFile fs (joinPath target e.sanitized_name) e.contents)
        (joinPath target e.sanitized_name) = some e.contents) ∧
    (∀ (e : Entry) (accept : Nat) (fs : FS) (target : String) (old : List Nat),
      isDirFS fs target = true → e.is_dir = false → e.is_file = true →
      e.contents.length ≤ accept →
      lookupFile fs (joinPath target e.sanitized_name) = some old →
      (extract [some e] accept fs target).2 = .ok () ∧
      lookupFile (extract [some e] accept fs target).1
        (joinPath target e.sanitized_name) = some e.contents) ∧
    (∀ (archive : Archive) (accept : Nat) (fs : FS) (target : String),
      (∀ oe ∈ archive, ∀ e : Entry, oe = some e → e.is_dir = false) →
      (extract archive accept fs target).2 ≠ .error (.Io .AlreadyExists)) := by
  refine ⟨?_, ?_, ?_⟩
  · intro archive accept target fs i e hbi hdir hfile hacc
    have h := by_index_ok_lt archive i e hbi
    rw [extractLoop_unfold_file archive accept target fs i e h hbi hdir hfile]
    rw [min_eq_right hacc, List.take_length, setFile_setFile, setFile_setFile]
    exact ⟨rfl, lookupFile_setFile fs (joinPath target e.sanitized_name) e.contents⟩
  · intro e accept fs target old hdirfs hdir hfile hacc hlook
    unfold extract
    simp only [hdirfs, Bool.not_true, Bool.false_eq_true, if_false]
    have h0 : (0 : Nat) < archiveLen [some e] := by
      simp [archiveLen]
    have hbi : by_index [some e] 0 = .ok e := rfl
    rw [extractLoop_unfold_file [some e] accept target fs 0 e h0 hbi hdir hfile]
    rw [extractLoop_stop [some e] accept target _ 1 (by simp [archiveLen])]
    refine ⟨rfl, ?_⟩
    rw [min_eq_right hacc, List.take_length, setFile_setFile, setFile_setFile]
    exact lookupFile_setFile fs (joinPath target e.sanitized_name) e.contents
  · intro archive accept fs target hnd
    unfold extract
    by_cases h : isDirFS fs target
    · simp only [h, Bool.not_true, Bool.false_eq_true, if_false]
      exact extractLoop_no_already_exists_of_no_dir archive accept target hnd
        (archiveLen archive) 0 fs (by omega)
    · simp only [Bool.not_eq_true] at h
      simp only [h, Bool.not_false, if_true]
      simp

theorem extract_always_overwrites_witness :
    (by_index [some ⟨"m", false, true, [1]⟩, some ⟨"n", false, true, [7]⟩] 1 =
      .ok ⟨"n", false, true, [7]⟩ ∧
     lookupFile ⟨[("t/n", [9, 9])], ["t"]⟩ (joinPath "t" "n") = some [9, 9] ∧
     extractLoop [some ⟨"m", false, true, [1]⟩, some ⟨"n", false, true, [7]⟩] 8 "t"
        ⟨[("t/n", [9, 9])], ["t"]⟩ 1 =
      extractLoop [some ⟨"m", false, true, [1]⟩, some ⟨"n", false, true, [7]⟩] 8 "t"
        (setFile ⟨[("t/n", [9, 9])], ["t"]⟩ (joinPath "t" "n") [7]) 2 ∧
     lookupFile (setFile ⟨[("t/n", [9, 9])], ["t"]⟩ (joinPath "t" "n") [7])
        (joinPath "t" "n") = some [7]) ∧
    (extract [some ⟨"n", false, true, [7]⟩] 8 ⟨[("t/n", [9, 9])], ["t"]⟩ "t").2 = .ok () ∧
    lookupFile (extract [some ⟨"n", false, true, [7]⟩] 8 ⟨[("t/n", [9, 9])], ["t"]⟩ "t").1
      (joinPath "t" "n") = some [7] := by
  have hstep := extract_always_overwrites.1
    [some ⟨"m", false, true, [1]⟩, some ⟨"n", false, true, [7]⟩] 8 "t"
    ⟨[("t/n", [9, 9])], ["t"]⟩ 1 ⟨"n", false, true, [7]⟩ rfl rfl rfl (by simp)
  have hend := extract_always_overwrites.2.1 ⟨"n", false, true, [7]⟩ 8
    ⟨[("t/n", [9, 9])], ["t"]⟩ "t" [9, 9] rfl rfl rfl (by simp) rfl
  exact ⟨⟨rfl, rfl, hstep.1, hstep.2⟩, hend.1, hend.2⟩

/-- C6: `file_number` scans entry indices in ascending order from 0,
skipping indices whose entry fails to resolve; it returns the first index
whose resolved sanitized path equals the target path exactly, and `none`
when the scan finds no match. -/
theorem file_number_first_match (archive : Archive) (entry_path : String) :
    (∀ r, file_number archive entry_path = some r →
      slotMatches entry_path (archive.getD r none) = true ∧
      ∀ j, j < r → slotMatches entry_path (archive.getD j none) = false) ∧
    (file_number archive entry_path = none →
      ∀ j, slotMatches entry_path (archive.getD j none) = false) :=
  file_number_spec archive entry_path

theorem file_number_first_match_witness :
    slotMatches "a"
      (([none, some ⟨"a", false, true, []⟩] : Archive).getD 1 none) = true ∧
    ∀ j, j < 1 →
      slotMatches "a" (([none, some ⟨"a", false, true, []⟩] : Archive).getD j none) = false :=
  (file_number_first_match [none, some ⟨"a", false, true, []⟩] "a").1 1
    (by simp [file_number, fileNumberLoop, by_index, archiveLen])

/-- C7: when the entry at the given index resolves to something that is not
a plain file, both `extract_file_to_memory` and `extract_file` fail with an
`InvalidInput` I/O error (and neither the buffer nor the filesystem is
touched). -/
theorem extract_single_non_file_invalid_input (archive : Archive) (i : Nat)
    (e : Entry) (accept : Nat) (fs : FS) (dest : String) (ow : Bool)
    (buffer : List Nat) (hbi : by_index archive i = .ok e)
    (hfile : e.is_file = false) :
    extract_file_to_memory archive i buffer = (buffer, .error (.Io .InvalidInput)) ∧
    extract_file archive accept fs i dest ow = (fs, .error (.Io .InvalidInput)) := by
  refine ⟨extract_file_to_memory_not_file archive i e buffer hbi hfile, ?_⟩
  unfold extract_file
  rw [extract_file_to_memory_not_file archive i e [] hbi hfile]

theorem extract_single_non_file_invalid_input_witness :
    by_index [some ⟨"d", true, false, []⟩] 0 = .ok ⟨"d", true, false, []⟩ ∧
    extract_file_to_memory [some ⟨"d", true, false, []⟩] 0 [5] =
      ([5], .error (.Io .InvalidInput)) ∧
    extract_file [some ⟨"d", true, false, []⟩] 9 ⟨[], []⟩ 0 "t/d" false =
      (⟨[], []⟩, .error (.Io .InvalidInput)) := by
  refine ⟨rfl, ?_, ?_⟩
  · exact (extract_single_non_file_invalid_input [some ⟨"d", true, false, []⟩] 0
      ⟨"d", true, false, []⟩ 9 ⟨[], []⟩ "t/d" false [5] rfl rfl).1
  · exact (extract_single_non_file_invalid_input [some ⟨"d", true, false, []⟩] 0
      ⟨"d", true, false, []⟩ 9 ⟨[], []⟩ "t/d" false [5] rfl rfl).2

/-- C8: when no entry of the archive resolves to a sanitized path equal to
the requested entry path, `zip_extract_file` and
`zip_extract_file_to_memory` both fail with `FileNotFound`, the filesystem
is untouched (no output file is created) and the buffer is unchanged. -/
theorem zip_extract_missing_entry_not_found (archive : Archive) (accept : Nat)
    (fs : FS) (entry_path target_dir : String) (ow : Bool) (buffer : List Nat)
    (h : ∀ oe ∈ archive, ∀ e, oe = some e → e.sanitized_name ≠ entry_path) :
    zip_extract_file archive accept fs entry_path target_dir ow =
      (fs, .error .FileNotFound) ∧
    zip_extract_file_to_memory archive entry_path buffer =
      (buffer, .error .FileNotFound) := by
  have hnone := file_number_none_of_no_match archive entry_path h
  unfold zip_extract_file zip_extract_file_to_memory
  rw [hnone]
  exact ⟨rfl, rfl⟩

theorem zip_extract_missing_entry_not_found_witness :
    (∀ oe ∈ ([some ⟨"b", false, true, [1]⟩] : Archive), ∀ e : Entry,
      oe = some e → e.sanitized_name ≠ "a") ∧
    zip_extract_file [some ⟨"b", false, true, [1]⟩] 4 ⟨[], ["t"]⟩ "a" "t" true =
      (⟨[], ["t"]⟩, .error .FileNotFound) ∧
    zip_extract_file_to_memory [some ⟨"b", false, true, [1]⟩] "a" [6] =
      ([6], .error .FileNotFound) := by
  have h : ∀ oe ∈ ([some ⟨"b", false, true, [1]⟩] : Archive), ∀ e : Entry,
      oe = some e → e.sanitized_name ≠ "a" := by
    intro oe hoe e hoee
    simp at hoe
    subst hoe
    simp at hoee
    subst hoee
    simp
  exact ⟨h,
    (zip_extract_missing_entry_not_found [some ⟨"b", false, true, [1]⟩] 4
      ⟨[], ["t"]⟩ "a" "t" true [6] h).1,
    (zip_extract_missing_entry_not_found [some ⟨"b", false, true, [1]⟩] 4
      ⟨[], ["t"]⟩ "a" "t" true [6] h).2⟩

/-- C9: on a successful single-entry extraction, `zip_extract_file` writes
the decoded bytes of the entry to `target_dir` joined with the
caller-supplied `entry_path`: that destination path holds the contents of
the entry afterwards. -/
theorem zip_extract_file_caller_path_destination (archive : Archive)
    (accept : Nat) (fs : FS) (entry_path target_dir : String) (ow : Bool)
    (i : Nat) (e : Entry) (hfn : file_number archive entry_path = some i)
    (hbi : by_index archive i = .ok e) (hfile : e.is_file = true)
    (hacc : e.contents.length ≤ accept)
    (how : pathExists fs (joinPath target_dir entry_path) = false ∨ ow = true) :
    (zip_extract_file archive accept fs entry_path target_dir ow).2 = .ok () ∧
    lookupFile (zip_extract_file archive accept fs entry_path target_dir ow).1
      (joinPath target_dir entry_path) = some e.contents := by
  unfold zip_extract_file extract_file
  simp only [hfn]
  simp only [extract_file_to_memory_ok archive i e [] hbi hfile, List.nil_append]
  simp only [file_write_all_bytes_fresh_ok accept fs (joinPath target_dir entry_path)
    e.contents ow how]
  refine ⟨trivial, ?_⟩
  rw [min_eq_right hacc, List.take_length, setFile_setFile, setFile_setFile]
  exact lookupFile_setFile fs (joinPath target_dir entry_path) e.contents

theorem zip_extract_file_caller_path_destination_witness :
    file_number [some ⟨"a", false, true, [7, 8]⟩] "a" = some 0 ∧
    by_index [some ⟨"a", false, true, [7, 8]⟩] 0 = .ok ⟨"a", false, true, [7, 8]⟩ ∧
    (⟨"a", false, true, [7, 8]⟩ : Entry).is_file = true ∧
    (⟨"a", false, true, [7, 8]⟩ : Entry).contents.length ≤ 9 ∧
    (pathExists ⟨[], ["t"]⟩ (joinPath "t" "a") = false ∨ false = true) ∧
    (zip_extract_file [some ⟨"a", false, true, [7, 8]⟩] 9 ⟨[], ["t"]⟩ "a" "t" false).2
      = .ok () ∧
    lookupFile
      (zip_extract_file [some ⟨"a", false, true, [7, 8]⟩] 9 ⟨[], ["t"]⟩ "a" "t" false).1
      (joinPath "t" "a") = some [7, 8] := by
  have hfn : file_number [some ⟨"a", false, true, [7, 8]⟩] "a" = some 0 := by
    simp [file_number, fileNumberLoop, by_index, archiveLen]
  have hcp := zip_extract_file_caller_path_destination
    [some ⟨"a", false, true, [7, 8]⟩] 9 ⟨[], ["t"]⟩ "a" "t" false 0
    ⟨"a", false, true, [7, 8]⟩ hfn rfl rfl (by simp) (Or.inl rfl)
  exact ⟨hfn, rfl, rfl, by simp, Or.inl rfl, hcp.1, hcp.2⟩

/-- C10: whenever `extract_file_to_memory` returns an error — the index
fails to resolve, or the resolved entry is not a plain file — the
caller-supplied buffer comes back exactly as it was passed in: nothing is
appended and pre-existing content is untouched. -/
theorem extract_file_to_memory_error_preserves_buffer (archive : Archive)
    (i : Nat) (buffer : List Nat) (err : ZipError)
    (h : (extract_file_to_memory archive i buffer).2 = .error err) :
    (extract_file_to_memory archive i buffer).1 = buffer := by
  cases hbi : by_index archive i with
  | error e => rw [extract_file_to_memory_err archive i e buffer hbi]
  | ok next =>
      cases hfile : next.is_file with
      | true =>
          rw [extract_file_to_memory_ok archive i next buffer hbi hfile] at h
          exact absurd h (by simp)
      | false =>
          rw [extract_file_to_memory_not_file archive i next buffer hbi hfile]

theorem extract_file_to_memory_error_preserves_buffer_witness :
    (extract_file_to_memory [none] 0 [3, 4]).2 = .error .InvalidArchive ∧
    (extract_file_to_memory [none] 0 [3, 4]).1 = [3, 4] :=
  ⟨rfl, extract_file_to_memory_error_preserves_buffer [none] 0 [3, 4] .InvalidArchive rfl⟩
